import Mathlib

/-!
Verification of the ia-investing news aggregation and sentiment scoring
pipeline.  The definitions below are shallow embeddings of the Python
sources: `news_sources/aggregator.py`, `scoring.py`,
`services/sentiment_service.py`, `services/news_service.py` and
`rate_limit_manager.py`.  Machine floats are modelled as exact rationals
(ℚ) or reals (ℝ); timestamps are epoch seconds as rationals; library
primitives that are not part of the repository (difflib's similarity
ratio, `strptime` format matchers) are passed in as parameters.
-/

set_option maxHeartbeats 1000000

/-- `models.SentimentCategory`: the five valid sentiment categories. -/
inductive SentimentCategory where
  | HIGHLY_NEGATIVE
  | NEGATIVE
  | NEUTRAL
  | POSITIVE
  | HIGHLY_POSITIVE
deriving DecidableEq, Repr

/-- String value of a `SentimentCategory` (the Python enum `.value`). -/
def SentimentCategory.value : SentimentCategory → String
  | .HIGHLY_NEGATIVE => "Highly Negative"
  | .NEGATIVE => "Negative"
  | .NEUTRAL => "Neutral"
  | .POSITIVE => "Positive"
  | .HIGHLY_POSITIVE => "Highly Positive"

/-- `models.NewsItem`: a validated news item.  Optional floats are `Option ℚ`. -/
structure NewsItem where
  title : String
  summary : String
  published_date : String
  source : Option String := none
  source_type : Option String := none
  url : Option String := none
  relevance_score : Option ℚ := none
  engagement_score : Option ℤ := none
  author : Option String := none
  author_followers : Option ℤ := none
deriving DecidableEq, Repr

/-- `models.SentimentAnalysis`: a validated sentiment analysis result. -/
structure SentimentAnalysis where
  sentiment : SentimentCategory
  justification : String
deriving DecidableEq, Repr

/-- `models.AnalysisResult`: a complete analysis result for a news item.
`analyzed_at` is an epoch timestamp in seconds. -/
structure AnalysisResult where
  news : NewsItem
  analysis : Option SentimentAnalysis := none
  analyzed_at : ℚ
  ticker : String
  error : Option String := none
deriving DecidableEq, Repr

/-- `models.AnalysisResult.is_successful`: analysis present and no error. -/
def AnalysisResult.is_successful (r : AnalysisResult) : Bool :=
  r.analysis.isSome && r.error.isNone

/-! ## `news_sources/aggregator.py` -/

/-- Python's `str.lower()`: lowercase every character. -/
def toLowerStr (s : String) : String := String.mk (s.data.map Char.toLower)

/-- Python's `str.strip()`: drop whitespace from both ends. -/
def trimStr (s : String) : String :=
  String.mk
    (((s.data.dropWhile Char.isWhitespace).reverse.dropWhile Char.isWhitespace).reverse)

/-- `NewsAggregator._is_similar`, with difflib's `SequenceMatcher(None, t1, t2)
.ratio() >= similarity_threshold` test abstracted as the parameter `ratioGE`
(difflib is Python stdlib, not repository code).  The lowercase/strip
normalisation and the equal-titles fast path are from the source. -/
def isSimilar (ratioGE : String → String → Bool) (title1 title2 : String) : Bool :=
  let t1 := trimStr (toLowerStr title1)
  let t2 := trimStr (toLowerStr title2)
  if t1 == t2 then true else ratioGE t1 t2

/-- `NewsAggregator._get_priority`: base priority by `source_type`
(via `source_priorities.get(item.source_type or "", 0)`), plus
`relevance_score` when it is truthy (present and nonzero). -/
def getPriority (item : NewsItem) : ℚ :=
  let base : ℚ :=
    match item.source_type.getD "" with
    | "alpha_vantage" => 3
    | "reddit" => 2
    | "twitter" => 1
    | _ => 0
  match item.relevance_score with
  | some r => if r = 0 then base else base + r
  | none => base

/-- One iteration of the `for item in news_items` loop of
`NewsAggregator._deduplicate`.  The accumulator is the pair
`(unique_items, seen_urls)`.  `find?` models the inner
`for existing in unique_items` loop, which `break`s at the first
similar title; `List.erase` models `unique_items.remove(existing)`. -/
def dedupStep (sim : String → String → Bool)
    (acc : List NewsItem × Finset String) (item : NewsItem) :
    List NewsItem × Finset String :=
  if (match item.url with | some u => decide (u ∈ acc.2) | none => false) then acc
  else
    match acc.1.find? (fun ex => isSimilar sim item.title ex.title) with
    | some ex =>
      if getPriority item > getPriority ex then
        let uniq := acc.1.erase ex
        let seen := match ex.url with | some u => acc.2.erase u | none => acc.2
        (uniq ++ [item], match item.url with | some u => insert u seen | none => seen)
      else acc
    | none =>
      (acc.1 ++ [item], match item.url with | some u => insert u acc.2 | none => acc.2)

/-- `NewsAggregator._deduplicate`: fold the loop body over the input,
starting from empty `unique_items` and `seen_urls`. -/
def deduplicate (sim : String → String → Bool) (news_items : List NewsItem) :
    List NewsItem :=
  (news_items.foldl (dedupStep sim) ([], ∅)).1

/-- `parse_date` inner helper of `NewsAggregator._sort_by_date`: try each
format in order, falling back to `datetime.min` (encoded as `0`) if none
parses.  The individual `strptime` format matchers are parameters; dates
are encoded as naturals that respect chronological order, with
`datetime.min = 0`. -/
def tryFormats : List (String → Option ℕ) → String → Option ℕ
  | [], _ => none
  | p :: ps, s =>
    match p s with
    | some d => some d
    | none => tryFormats ps s

/-- The sort key of `NewsAggregator._sort_by_date`. -/
def parse_date (parsers : List (String → Option ℕ)) (item : NewsItem) : ℕ :=
  (tryFormats parsers item.published_date).getD 0

/-- `NewsAggregator._sort_by_date`: `sorted(news_items, key=parse_date,
reverse=True)` — a stable sort, descending in the parsed date. -/
def sortByDate (parsers : List (String → Option ℕ)) (news_items : List NewsItem) :
    List NewsItem :=
  news_items.mergeSort
    (fun a b => decide (parse_date parsers b ≤ parse_date parsers a))

/-! ## `scoring.py` -/

/-- `scoring.SENTIMENT_SCORES`: category to integer score. -/
def SENTIMENT_SCORES : SentimentCategory → ℤ
  | .HIGHLY_NEGATIVE => -2
  | .NEGATIVE => -1
  | .NEUTRAL => 0
  | .POSITIVE => 1
  | .HIGHLY_POSITIVE => 2

/-- `scoring.SentimentScore` dataclass.  `confidence` is real-valued
(it involves a square root); `score` and `normalized_score` stay rational. -/
structure SentimentScore where
  ticker : String
  score : ℚ
  normalized_score : ℚ
  sentiment_label : String
  confidence : ℝ
  total_analyzed : ℕ
  positive_count : ℕ
  negative_count : ℕ
  neutral_count : ℕ
  time_weighted_score : Option ℝ := none
  trend : Option String := none

/-- `scoring.SentimentScore.signal`: trading signal from the normalized score. -/
def SentimentScore.signal (s : SentimentScore) : String :=
  if s.normalized_score ≥ 1/2 then "STRONG BUY"
  else if s.normalized_score ≥ 1/5 then "BUY"
  else if s.normalized_score ≥ -(1/5) then "HOLD"
  else if s.normalized_score ≥ -(1/2) then "SELL"
  else "STRONG SELL"

/-- The `valid_results` filter used throughout `scoring.py`:
`[r for r in results if r.is_successful and r.analysis]`. -/
def validResults (results : List AnalysisResult) : List AnalysisResult :=
  results.filter (fun r => r.is_successful && r.analysis.isSome)

/-- The sentiment category of a result, `r.analysis.sentiment`; only ever
applied to valid results, where `analysis` is present. -/
def sentimentOf (r : AnalysisResult) : SentimentCategory :=
  match r.analysis with
  | some a => a.sentiment
  | none => SentimentCategory.NEUTRAL

/-- `statistics.stdev`: sample standard deviation (denominator `n - 1`). -/
noncomputable def stdev (xs : List ℤ) : ℝ :=
  let mean : ℝ := (xs.sum : ℝ) / xs.length
  Real.sqrt ((xs.map (fun x => ((x : ℝ) - mean) ^ 2)).sum / ((xs.length : ℝ) - 1))

/-- `scoring.calculate_sentiment_score`. -/
noncomputable def calculate_sentiment_score (results : List AnalysisResult) :
    Option SentimentScore :=
  if results.isEmpty then none
  else
    match validResults results with
    | [] => none
    | v0 :: vtail =>
      let valid := v0 :: vtail
      let positive_count := valid.countP
        (fun r => sentimentOf r == .POSITIVE || sentimentOf r == .HIGHLY_POSITIVE)
      let negative_count := valid.countP
        (fun r => sentimentOf r == .NEGATIVE || sentimentOf r == .HIGHLY_NEGATIVE)
      let neutral_count := valid.countP (fun r => sentimentOf r == .NEUTRAL)
      let scores := valid.map (fun r => SENTIMENT_SCORES (sentimentOf r))
      let avg_score : ℚ := (scores.sum : ℚ) / scores.length
      let normalized_score := avg_score / 2
      let sentiment_label :=
        if avg_score ≥ 3/2 then "Highly Positive"
        else if avg_score ≥ 1/2 then "Positive"
        else if avg_score ≥ -(1/2) then "Neutral"
        else if avg_score ≥ -(3/2) then "Negative"
        else "Highly Negative"
      let confidence : ℝ :=
        if 1 < scores.length then max 0 (1 - stdev scores / 2) else 1/2
      some
        { ticker := v0.ticker
          score := avg_score
          normalized_score := normalized_score
          sentiment_label := sentiment_label
          confidence := confidence
          total_analyzed := valid.length
          positive_count := positive_count
          negative_count := negative_count
          neutral_count := neutral_count }

/-- `scoring.calculate_time_weighted_score`; `now` is `datetime.now()` as an
epoch-seconds rational, `(now - r.analyzed_at).total_seconds() / 86400` the
age in days, and the exponential weight uses real exponentiation. -/
noncomputable def calculate_time_weighted_score (now : ℚ)
    (results : List AnalysisResult) (decay_days : ℚ) : Option SentimentScore :=
  match calculate_sentiment_score results with
  | none => none
  | some base =>
    let valid := validResults results
    let weight : AnalysisResult → ℝ := fun r =>
      (1/2 : ℝ) ^ (((((now - r.analyzed_at) / 86400) / decay_days : ℚ) : ℝ))
    let weighted_sum : ℝ :=
      (valid.map (fun r => (SENTIMENT_SCORES (sentimentOf r) : ℝ) * weight r)).sum
    let weight_total : ℝ := (valid.map weight).sum
    if weight_total > 0 then
      some { base with time_weighted_score := some (weighted_sum / weight_total / 2) }
    else some base

/-- `scoring.calculate_trend`; the inner call to
`calculate_time_weighted_score` uses the default half-life of 7 days, and
`cutoff = now - timedelta(days=window_days)` in epoch seconds. -/
noncomputable def calculate_trend (now : ℚ) (results : List AnalysisResult)
    (window_days : ℚ) : Option SentimentScore :=
  match calculate_time_weighted_score now results 7 with
  | none => none
  | some score =>
    if score.total_analyzed < 4 then some score
    else
      let valid := validResults results
      let cutoff := now - window_days * 86400
      let recent := valid.filter (fun r => decide (r.analyzed_at ≥ cutoff))
      let older := valid.filter (fun r => decide (r.analyzed_at < cutoff))
      if recent.length < 2 ∨ older.length < 2 then
        some { score with trend := some "insufficient_data" }
      else
        let recent_scores := recent.map (fun r => SENTIMENT_SCORES (sentimentOf r))
        let older_scores := older.map (fun r => SENTIMENT_SCORES (sentimentOf r))
        let recent_avg : ℚ := (recent_scores.sum : ℚ) / recent_scores.length
        let older_avg : ℚ := (older_scores.sum : ℚ) / older_scores.length
        let diff := recent_avg - older_avg
        if diff > 3/10 then some { score with trend := some "improving" }
        else if diff < -(3/10) then some { score with trend := some "declining" }
        else some { score with trend := some "stable" }

/-! ## `services/sentiment_service.py` -/

/-- `sentiment_service.SENTIMENT_SCORES`: half-integer score per sentiment
label string, with the dict-lookup default of `0.0` for unknown labels. -/
def serviceSentimentScores (s : String) : ℚ :=
  match s with
  | "Highly Positive" => 1
  | "Positive" => 1/2
  | "Neutral" => 0
  | "Negative" => -(1/2)
  | "Highly Negative" => -1
  | _ => 0

/-- The normalized score computed by
`sentiment_service.update_ticker_sentiment` from the sentiment labels of
the analyzed news rows: total half-integer score divided by the number of
rows (or `0.0` when there are none). -/
def serviceNormalizedScore (sentiments : List String) : ℚ :=
  let total_score := (sentiments.map serviceSentimentScores).sum
  let total_analyzed := sentiments.length
  if 0 < total_analyzed then total_score / total_analyzed else 0

/-- The trading signal computed inline by
`sentiment_service.update_ticker_sentiment` (before any rounding of the
stored normalized score). -/
def serviceSignal (sentiments : List String) : String :=
  let normalized_score := serviceNormalizedScore sentiments
  if normalized_score ≥ 1/2 then "STRONG BUY"
  else if normalized_score ≥ 1/5 then "BUY"
  else if normalized_score ≥ -(1/5) then "HOLD"
  else if normalized_score ≥ -(1/2) then "SELL"
  else "STRONG SELL"

/-! ## `rate_limit_manager.py`

`RateLimitStatus` guards every method body with `with self._lock:` where
`self._lock` is a non-reentrant `threading.Lock`.  The embedding makes the
lock explicit: `acquire` returns `none` when the lock is already held —
the Python call would block forever (self-deadlock) — and method results
are `Option`-valued accordingly.  Timestamps are epoch-second rationals. -/

/-- State of a `RateLimitStatus` tracker: the optional cooldown deadline,
the optional message, and whether `_lock` is currently held. -/
structure RateLimitState where
  cooldown_until : Option ℚ := none
  message : Option String := none
  locked : Bool := false
deriving DecidableEq, Repr

/-- `threading.Lock.acquire`: succeeds only when not already held;
a second acquire by the same holder blocks forever (`none`). -/
def lockAcquire (s : RateLimitState) : Option RateLimitState :=
  if s.locked then none else some { s with locked := true }

/-- `threading.Lock.release` at the end of a `with self._lock:` block. -/
def lockRelease (s : RateLimitState) : RateLimitState :=
  { s with locked := false }

/-- `RateLimitStatus.clear_cooldown`: takes the lock, clears the cooldown
deadline and the message. -/
def clear_cooldown (s : RateLimitState) : Option RateLimitState :=
  (lockAcquire s).map
    (fun s1 => lockRelease { s1 with cooldown_until := none, message := none })

/-- `RateLimitStatus.is_available`: under the lock, returns `true` when no
cooldown is set; when the deadline has passed it calls `clear_cooldown`
(which tries to re-acquire the already-held lock) and returns `true`;
otherwise returns `false`.  `none` models blocking forever. -/
def is_available (now : ℚ) (s : RateLimitState) : Option (Bool × RateLimitState) :=
  match lockAcquire s with
  | none => none
  | some s1 =>
    match s1.cooldown_until with
    | none => some (true, lockRelease s1)
    | some t =>
      if now ≥ t then (clear_cooldown s1).map (fun s2 => (true, lockRelease s2))
      else some (false, lockRelease s1)

/-! ## `services/news_service.py` -/

/-- `database.NewsRecord` row (the fields touched by the news service). -/
structure NewsRecord where
  id : ℕ
  ticker : String
  title : String := ""
  summary : String := ""
  published_date : String := ""
  source : Option String := none
  url : Option String := none
  relevance_score : Option ℚ := none
  status : String
  sentiment : Option String := none
  justification : Option String := none
  fetched_at : ℚ := 0
  analyzed_at : Option ℚ := none
deriving DecidableEq, Repr

/-- The in-place mutation of `update_news_analysis` applied to the first
record matching the id (`query.filter(NewsRecord.id == news_id).first()`). -/
def updateFirstRecord (news_id : ℕ) (sentiment justification : String) (now : ℚ) :
    List NewsRecord → List NewsRecord
  | [] => []
  | r :: rest =>
    if r.id = news_id then
      { r with sentiment := some sentiment, justification := some justification,
               status := "analyzed", analyzed_at := some now } :: rest
    else r :: updateFirstRecord news_id sentiment justification now rest

/-- `news_service.update_news_analysis`: returns `False` and leaves the
store unchanged when no record has the id; otherwise sets sentiment,
justification, `status = "analyzed"` and the analyzed-at timestamp on the
matched record and returns `True`. -/
def update_news_analysis (now : ℚ) (store : List NewsRecord) (news_id : ℕ)
    (sentiment justification : String) : Bool × List NewsRecord :=
  match store.find? (fun r => r.id == news_id) with
  | none => (false, store)
  | some _ => (true, updateFirstRecord news_id sentiment justification now store)

/-- `news_service.get_pending_news`: the pending rows, oldest fetched
first, limited. -/
def get_pending_news (store : List NewsRecord) (limit : ℕ) : List NewsRecord :=
  (((store.filter (fun r => r.status == "pending")).mergeSort
    (fun a b => decide (a.fetched_at ≤ b.fetched_at))).take limit)

/-! ## Theorems -/

/-- C9: the claim says `is_available()` on an expired cooldown returns true
and clears the cooldown exactly once (and is then idempotent).  The code
does intend this (its own comment reads "Cooldown expired, clear it"), but
`is_available` holds the non-reentrant `threading.Lock` and then calls
`clear_cooldown`, which tries to acquire the same lock again: the call
blocks forever (modelled as `none`).  The unexpired and no-cooldown paths
do return normally, so the slip is exactly on the expiry path. -/
theorem C9_is_available_deadlock :
    is_available 10 { cooldown_until := some 5, message := some "m" } = none ∧
    is_available 3 { cooldown_until := some 5, message := some "m" } =
      some (false, { cooldown_until := some 5, message := some "m" }) ∧
    is_available 10 {} = some (true, {}) := by
  refine ⟨rfl, ?_, rfl⟩
  simp [is_available, lockAcquire, lockRelease]
  norm_num

/-- Auxiliary for C10: `find?` after `updateFirstRecord` returns the
matched record with its analysis fields overwritten. -/
theorem find?_updateFirstRecord (news_id : ℕ) (s j : String) (now : ℚ) :
    ∀ (store : List NewsRecord) (r : NewsRecord),
      store.find? (fun x => x.id == news_id) = some r →
      (updateFirstRecord news_id s j now store).find? (fun x => x.id == news_id) =
        some { r with sentiment := some s, justification := some j,
                      status := "analyzed", analyzed_at := some now }
  | [], r => by simp
  | x :: rest, r => by
    intro h
    by_cases hx : x.id = news_id
    · rw [List.find?_cons_of_pos _ (by simpa using hx)] at h
      cases h
      simp [updateFirstRecord, hx, List.find?_cons_of_pos]
    · rw [List.find?_cons_of_neg _ (by simpa using hx)] at h
      rw [updateFirstRecord, if_neg hx]
      rw [List.find?_cons_of_neg _ (by simpa using hx)]
      exact find?_updateFirstRecord news_id s j now rest r h

/-- C10: `update_news_analysis` returns `False` with the store unchanged
iff no record carries the id; otherwise it returns `True` and overwrites
the matched record's sentiment, justification, status and analyzed-at
timestamp regardless of its prior status (so a repeated call overwrites an
already-analyzed record); and the analyze pipeline's candidate selection
`get_pending_news` only ever yields records with status "pending". -/
theorem C10_update_news_analysis (now : ℚ) (store : List NewsRecord)
    (news_id : ℕ) (s j : String) (lim : ℕ) :
    (update_news_analysis now store news_id s j = (false, store) ↔
      store.find? (fun r => r.id == news_id) = none) ∧
    (∀ r, store.find? (fun r => r.id == news_id) = some r →
      update_news_analysis now store news_id s j =
        (true, updateFirstRecord news_id s j now store) ∧
      (updateFirstRecord news_id s j now store).find? (fun r => r.id == news_id) =
        some { r with sentiment := some s, justification := some j,
                      status := "analyzed", analyzed_at := some now }) ∧
    (∀ r ∈ get_pending_news store lim, r.status = "pending") := by
  refine ⟨?_, ?_, ?_⟩
  · constructor
    · intro h
      rcases hf : store.find? (fun r => r.id == news_id) with _ | r
      · exact hf
      · rw [update_news_analysis, hf] at h
        exact absurd (congrArg Prod.fst h) (by simp)
    · intro h
      rw [update_news_analysis, h]
  · intro r hr
    refine ⟨by rw [update_news_analysis, hr], ?_⟩
    exact find?_updateFirstRecord news_id s j now store r hr
  · intro r hr
    have h1 : r ∈ (store.filter (fun x => x.status == "pending")).mergeSort
        (fun a b => decide (a.fetched_at ≤ b.fetched_at)) := by
      have := List.take_subset lim (((store.filter (fun x => x.status == "pending"))).mergeSort
        (fun a b => decide (a.fetched_at ≤ b.fetched_at)))
      exact this hr
    have h2 : r ∈ store.filter (fun x => x.status == "pending") :=
      List.mem_mergeSort.mp h1
    simpa using (List.mem_filter.mp h2).2

/-- C7: the date sort is total (a permutation of its input — nothing is
dropped and no exception path exists), its output is non-increasing in the
parsed publication date, and after any item whose date string no format
parses every later item has the minimum (`datetime.min = 0`) key, i.e.
unparsable-date items sort to the end. -/
theorem C7_sort_by_date (parsers : List (String → Option ℕ)) (items : List NewsItem) :
    (sortByDate parsers items).Perm items ∧
    (sortByDate parsers items).Pairwise
      (fun a b => parse_date parsers b ≤ parse_date parsers a) ∧
    (sortByDate parsers items).Pairwise
      (fun a b => tryFormats parsers a.published_date = none →
        parse_date parsers b = 0) := by
  refine ⟨List.mergeSort_perm items _, ?_, ?_⟩
  · have h := @List.sorted_mergeSort NewsItem
      (fun a b => decide (parse_date parsers b ≤ parse_date parsers a))
      (fun a b c hab hbc => by
        simp only [decide_eq_true_eq] at *; omega)
      (fun a b => by
        simp only [Bool.or_eq_true, decide_eq_true_eq]; omega)
      items
    exact h.imp (fun hab => by simpa using hab)
  · have h := @List.sorted_mergeSort NewsItem
      (fun a b => decide (parse_date parsers b ≤ parse_date parsers a))
      (fun a b c hab hbc => by
        simp only [decide_eq_true_eq] at *; omega)
      (fun a b => by
        simp only [Bool.or_eq_true, decide_eq_true_eq]; omega)
      items
    refine h.imp ?_
    intro a b hab hn
    simp only [decide_eq_true_eq] at hab
    have ha : parse_date parsers a = 0 := by
      simp [parse_date, hn]
    omega

/-- The integer scores of the successful results. -/
def scoresOf (rs : List AnalysisResult) : List ℤ :=
  (validResults rs).map (fun r => SENTIMENT_SCORES (sentimentOf r))

/-- The average of the per-category integer scores (the spec's base score). -/
def avgScoreOf (rs : List AnalysisResult) : ℚ :=
  ((scoresOf rs).sum : ℚ) / (scoresOf rs).length

/-- The label thresholds on the average, as the spec states them. -/
def sentimentLabelSpec (avg : ℚ) : String :=
  if avg ≥ 3/2 then "Highly Positive"
  else if avg ≥ 1/2 then "Positive"
  else if avg ≥ -(1/2) then "Neutral"
  else if avg ≥ -(3/2) then "Negative"
  else "Highly Negative"

/-- The signal thresholds on the normalized score, as the spec states them. -/
def signalSpec (x : ℚ) : String :=
  if x ≥ 1/2 then "STRONG BUY"
  else if x ≥ 1/5 then "BUY"
  else if x ≥ -(1/5) then "HOLD"
  else if x ≥ -(1/2) then "SELL"
  else "STRONG SELL"

/-- The confidence formula as the spec states it: `1 − stdev/2` floored at
`0` for two or more samples, and `0.5` for a single sample. -/
noncomputable def confidenceSpec (scores : List ℤ) : ℝ :=
  if 1 < scores.length then max 0 (1 - stdev scores / 2) else 1/2

/-- Full evaluation of `calculate_sentiment_score` on any input whose
successful sublist is nonempty. -/
theorem css_eq (rs : List AnalysisResult) (v0 : AnalysisResult)
    (vtail : List AnalysisResult) (hv : validResults rs = v0 :: vtail) :
    calculate_sentiment_score rs = some
      { ticker := v0.ticker
        score := avgScoreOf rs
        normalized_score := avgScoreOf rs / 2
        sentiment_label := sentimentLabelSpec (avgScoreOf rs)
        confidence := confidenceSpec (scoresOf rs)
        total_analyzed := (validResults rs).length
        positive_count := (validResults rs).countP
          (fun r => sentimentOf r == .POSITIVE || sentimentOf r == .HIGHLY_POSITIVE)
        negative_count := (validResults rs).countP
          (fun r => sentimentOf r == .NEGATIVE || sentimentOf r == .HIGHLY_NEGATIVE)
        neutral_count := (validResults rs).countP (fun r => sentimentOf r == .NEUTRAL) } := by
  have hne : rs.isEmpty = false := by
    cases rs with
    | nil => simp [validResults] at hv
    | cons x t => rfl
  rw [calculate_sentiment_score, hne]
  simp only [Bool.false_eq_true, if_false, hv, avgScoreOf, scoresOf,
    sentimentLabelSpec, confidenceSpec]

/-- C3: for every input whose successful sublist is nonempty,
`calculate_sentiment_score` returns the average of the integer category
scores, the normalized score `average / 2`, the label from the spec's
thresholds on the average, and the signal from the spec's thresholds on
the normalized score. -/
theorem C3_sentiment_score_formula (rs : List AnalysisResult)
    (h : validResults rs ≠ []) :
    (calculate_sentiment_score rs).map
      (fun s => (s.score, s.normalized_score, s.sentiment_label, s.signal)) =
      some (avgScoreOf rs, avgScoreOf rs / 2, sentimentLabelSpec (avgScoreOf rs),
        signalSpec (avgScoreOf rs / 2)) := by
  obtain ⟨v0, vtail, hv⟩ := List.exists_cons_of_ne_nil h
  rw [css_eq rs v0 vtail hv]
  rfl

/-- A successful analysis result with the given category and timestamp. -/
def mkResult (c : SentimentCategory) (t : ℚ) : AnalysisResult :=
  { news := { title := "t", summary := "s", published_date := "d" }
    analysis := some { sentiment := c, justification := "j" }
    analyzed_at := t
    ticker := "TST" }

/-- The worked example of the spec: categories
[Positive, Positive, Neutral, Negative, Highly Positive]. -/
def ex5 : List AnalysisResult :=
  [mkResult .POSITIVE 0, mkResult .POSITIVE 0, mkResult .NEUTRAL 0,
   mkResult .NEGATIVE 0, mkResult .HIGHLY_POSITIVE 0]

/-- Witness for C3: the spec's five-category example yields average 3/5,
normalized 3/10, label "Positive", signal "BUY". -/
theorem C3_witness :
    validResults ex5 ≠ [] ∧
    (calculate_sentiment_score ex5).map
      (fun s => (s.score, s.normalized_score, s.sentiment_label, s.signal)) =
      some (3/5, 3/10, "Positive", "BUY") := by
  refine ⟨by decide, ?_⟩
  rw [C3_sentiment_score_formula ex5 (by decide)]
  have hs : scoresOf ex5 = [1, 1, 0, -1, 2] := rfl
  have ha : avgScoreOf ex5 = 3/5 := by
    rw [avgScoreOf, hs]
    norm_num
  rw [ha]
  norm_num [sentimentLabelSpec, signalSpec]

/-- Pointwise bridge between the two scales: the service's half-integer
score of a category's label string is half the engine's integer score. -/
theorem serviceScores_value (c : SentimentCategory) :
    serviceSentimentScores c.value = (SENTIMENT_SCORES c : ℚ) / 2 := by
  cases c <;>
    norm_num [serviceSentimentScores, SentimentCategory.value, SENTIMENT_SCORES]

/-- Summing halves is half the sum. -/
theorem sum_map_div_two (l : List AnalysisResult) (f : AnalysisResult → ℚ) :
    (l.map (fun r => f r / 2)).sum = (l.map f).sum / 2 := by
  induction l with
  | nil => simp
  | cons x t ih =>
    simp only [List.map_cons, List.sum_cons, ih]
    ring

/-- Casting an integer score sum into ℚ commutes with the sum. -/
theorem cast_sum_scores (l : List AnalysisResult) :
    (((l.map (fun r => SENTIMENT_SCORES (sentimentOf r))).sum : ℤ) : ℚ) =
      (l.map (fun r => ((SENTIMENT_SCORES (sentimentOf r) : ℤ) : ℚ))).sum := by
  induction l with
  | nil => simp
  | cons x t ih =>
    simp only [List.map_cons, List.sum_cons]
    push_cast [ih]
    ring

/-- C5: for the same nonempty category multiset, the scoring engine's
signal (integer scores {-2..2}, averaged, divided by 2) and the persisted
per-ticker aggregate's signal (half-integer scores {-1..1}, averaged
directly) are equal: both normalized values coincide, so the identical
threshold chains agree. -/
theorem C5_signal_scales_agree (rs : List AnalysisResult)
    (h : validResults rs ≠ []) :
    (calculate_sentiment_score rs).map SentimentScore.signal =
      some (serviceSignal ((validResults rs).map (fun r => (sentimentOf r).value))) := by
  obtain ⟨v0, vtail, hv⟩ := List.exists_cons_of_ne_nil h
  rw [css_eq rs v0 vtail hv]
  have hnorm : serviceNormalizedScore
      ((validResults rs).map (fun r => (sentimentOf r).value)) = avgScoreOf rs / 2 := by
    rw [serviceNormalizedScore]
    simp only [List.length_map, List.map_map]
    rw [if_pos (by rw [hv]; simp)]
    have h1 : ((validResults rs).map
        (serviceSentimentScores ∘ fun r => (sentimentOf r).value)) =
        ((validResults rs).map (fun r => (SENTIMENT_SCORES (sentimentOf r) : ℚ) / 2)) := by
      apply List.map_congr_left
      intro a _
      exact serviceScores_value (sentimentOf a)
    rw [h1, sum_map_div_two]
    rw [avgScoreOf, scoresOf, cast_sum_scores]
    rw [div_right_comm]
    simp
  rw [Option.map_some', serviceSignal, hnorm]
  rfl

/-- Witness helper list: two identical successful POSITIVE results. -/
def ex2 : List AnalysisResult := [mkResult .POSITIVE 0, mkResult .POSITIVE 0]

/-- Witness for C5: on the spec's five-category example both computations
give the signal "BUY". -/
theorem C5_witness :
    validResults ex5 ≠ [] ∧
    (calculate_sentiment_score ex5).map SentimentScore.signal =
      some (serviceSignal ((validResults ex5).map (fun r => (sentimentOf r).value))) ∧
    serviceSignal ((validResults ex5).map (fun r => (sentimentOf r).value)) = "BUY" := by
  refine ⟨by decide, C5_signal_scales_agree ex5 (by decide), ?_⟩
  have hl : (validResults ex5).map (fun r => (sentimentOf r).value) =
      ["Positive", "Positive", "Neutral", "Negative", "Highly Positive"] := rfl
  rw [hl]
  have hn : serviceNormalizedScore
      ["Positive", "Positive", "Neutral", "Negative", "Highly Positive"] = 3/10 := by
    rw [serviceNormalizedScore]
    norm_num [show serviceSentimentScores "Positive" = 1/2 from rfl,
      show serviceSentimentScores "Neutral" = 0 from rfl,
      show serviceSentimentScores "Negative" = -(1/2) from rfl,
      show serviceSentimentScores "Highly Positive" = 1 from rfl]
  rw [serviceSignal, hn]
  norm_num

/-- The sample standard deviation of two equal values is zero. -/
theorem stdev_pair (x : ℤ) : stdev [x, x] = 0 := by
  rw [stdev]
  have hm : ((List.sum [x, x] : ℤ) : ℝ) / ((List.length [x, x] : ℕ) : ℝ) = (x : ℝ) := by
    simp only [List.sum_cons, List.sum_nil, List.length_cons, List.length_nil]
    push_cast
    ring
  simp only [hm]
  norm_num

/-- C8: the confidence of the computed score is `max 0 (1 − stdev/2)` for
two or more samples and exactly `1/2` for a single sample; two
identical-score samples give confidence exactly 1. -/
theorem C8_confidence (rs : List AnalysisResult) (h : validResults rs ≠ []) :
    (calculate_sentiment_score rs).map SentimentScore.confidence =
      some (confidenceSpec (scoresOf rs)) ∧
    ∀ x : ℤ, scoresOf rs = [x, x] → confidenceSpec (scoresOf rs) = 1 := by
  obtain ⟨v0, vtail, hv⟩ := List.exists_cons_of_ne_nil h
  refine ⟨by rw [css_eq rs v0 vtail hv]; rfl, ?_⟩
  intro x hx
  rw [hx, confidenceSpec]
  rw [if_pos (by simp)]
  rw [stdev_pair]
  norm_num

/-- Witness for C8: two identical POSITIVE samples give confidence 1. -/
theorem C8_witness :
    validResults ex2 ≠ [] ∧
    (calculate_sentiment_score ex2).map SentimentScore.confidence = some 1 := by
  refine ⟨by decide, ?_⟩
  have h := C8_confidence ex2 (by decide)
  rw [h.1, h.2 1 rfl]

/-- `calculate_sentiment_score` yields `none` exactly on inputs with no
successful entry. -/
theorem css_eq_none_iff (rs : List AnalysisResult) :
    calculate_sentiment_score rs = none ↔ validResults rs = [] := by
  constructor
  · intro h
    by_contra hne
    obtain ⟨v0, vtail, hv⟩ := List.exists_cons_of_ne_nil hne
    rw [css_eq rs v0 vtail hv] at h
    simp at h
  · intro h
    cases rs with
    | nil => rfl
    | cons x t =>
      rw [calculate_sentiment_score]
      simp [h]

/-- The exponential-decay weight of the spec: `0.5 ^ (age_in_days /
decay_half_life)`, with the age measured from the analyzed-at timestamp. -/
noncomputable def specWeight (now decay : ℚ) (r : AnalysisResult) : ℝ :=
  (1/2 : ℝ) ^ (((((now - r.analyzed_at) / 86400) / decay : ℚ) : ℝ))

/-- The spec's weight-normalized time-weighted score:
`Σ(raw_i × w_i) / Σ(w_i)`, divided by 2. -/
noncomputable def timeWeightedSpec (now : ℚ) (rs : List AnalysisResult)
    (decay : ℚ) : ℝ :=
  ((validResults rs).map
      (fun r => (SENTIMENT_SCORES (sentimentOf r) : ℝ) * specWeight now decay r)).sum /
    ((validResults rs).map (specWeight now decay)).sum / 2

/-- C6: on every input with at least one successful result, the
time-weighted score equals the spec's weight-normalized sum with weights
`0.5 ^ (age_in_days / decay_half_life)`, normalized by 2. -/
theorem C6_time_weighted_formula (now : ℚ) (rs : List AnalysisResult) (decay : ℚ)
    (h : validResults rs ≠ []) :
    (calculate_time_weighted_score now rs decay).map SentimentScore.time_weighted_score =
      some (some (timeWeightedSpec now rs decay)) := by
  obtain ⟨v0, vtail, hv⟩ := List.exists_cons_of_ne_nil h
  have hpos : ((validResults rs).map (fun r =>
      (1/2 : ℝ) ^ (((((now - r.analyzed_at) / 86400) / decay : ℚ) : ℝ)))).sum > 0 := by
    apply List.sum_pos
    · intro w hw
      rcases List.mem_map.mp hw with ⟨r, _, rfl⟩
      exact Real.rpow_pos_of_pos (by norm_num) _
    · rw [hv]
      simp
  rw [calculate_time_weighted_score, css_eq rs v0 vtail hv]
  simp only [hpos, ite_true]
  rfl

/-- Witness for C6: two POSITIVE results analyzed exactly at `now` have
weight 1 each and time-weighted score `(1+1)/(1+1)/2 = 1/2`. -/
theorem C6_witness :
    validResults ex2 ≠ [] ∧
    (calculate_time_weighted_score 0 ex2 7).map SentimentScore.time_weighted_score =
      some (some (timeWeightedSpec 0 ex2 7)) ∧
    timeWeightedSpec 0 ex2 7 = 1/2 := by
  refine ⟨by decide, C6_time_weighted_formula 0 ex2 7 (by decide), ?_⟩
  have h1 : specWeight 0 7 (mkResult .POSITIVE 0) = 1 := by
    rw [specWeight]
    norm_num [mkResult, Real.rpow_zero]
  have hv2 : validResults ex2 = [mkResult .POSITIVE 0, mkResult .POSITIVE 0] := rfl
  rw [timeWeightedSpec, hv2]
  simp only [List.map_cons, List.map_nil, List.sum_cons, List.sum_nil, h1]
  norm_num [mkResult, sentimentOf, SENTIMENT_SCORES]

/-- Time weighting never changes the trend field. -/
theorem tws_map_trend (now : ℚ) (rs : List AnalysisResult) (decay : ℚ) :
    (calculate_time_weighted_score now rs decay).map SentimentScore.trend =
      (calculate_sentiment_score rs).map SentimentScore.trend := by
  rw [calculate_time_weighted_score]
  rcases calculate_sentiment_score rs with _ | base
  · rfl
  · dsimp only
    split <;> rfl

/-- Time weighting never changes the sample count. -/
theorem tws_map_total (now : ℚ) (rs : List AnalysisResult) (decay : ℚ) :
    (calculate_time_weighted_score now rs decay).map SentimentScore.total_analyzed =
      (calculate_sentiment_score rs).map SentimentScore.total_analyzed := by
  rw [calculate_time_weighted_score]
  rcases calculate_sentiment_score rs with _ | base
  · rfl
  · dsimp only
    split <;> rfl

/-- With at least one successful result, the time-weighted score exists. -/
theorem tws_isSome (now : ℚ) (rs : List AnalysisResult) (decay : ℚ)
    (h : validResults rs ≠ []) :
    ∃ s, calculate_time_weighted_score now rs decay = some s := by
  obtain ⟨v0, vtail, hv⟩ := List.exists_cons_of_ne_nil h
  rw [calculate_time_weighted_score, css_eq rs v0 vtail hv]
  dsimp only
  split
  · exact ⟨_, rfl⟩
  · exact ⟨_, rfl⟩

/-- Below the 4-sample floor, `calculate_trend` returns the score with the
trend field still unset (`none`). -/
theorem trend_unset_below_floor (now w : ℚ) (rs : List AnalysisResult)
    (hne : validResults rs ≠ []) (h4 : (validResults rs).length < 4) :
    (calculate_trend now rs w).map SentimentScore.trend = some none := by
  obtain ⟨v0, vtail, hv⟩ := List.exists_cons_of_ne_nil hne
  obtain ⟨score, hs⟩ := tws_isSome now rs 7 hne
  have htr : score.trend = none := by
    have h1 := tws_map_trend now rs 7
    rw [hs, css_eq rs v0 vtail hv] at h1
    simpa using h1
  have hto : score.total_analyzed = (validResults rs).length := by
    have h1 := tws_map_total now rs 7
    rw [hs, css_eq rs v0 vtail hv] at h1
    simpa using h1
  have hlt : score.total_analyzed < 4 := by rw [hto]; exact h4
  rw [calculate_trend, hs]
  simp only [hlt, ite_true, Option.map_some', htr]

/-- C4 (amended): with exactly 3 successful samples `calculate_trend`
leaves the trend field unset (`none`) — the 4-sample floor is not met but
the code does not mark it `insufficient_data`; with at least 4 successful
samples, if either the recent partition (analyzed within the last
`window_days`) or the older partition has fewer than 2 samples, the trend
is `insufficient_data`. -/
theorem C4_trend_insufficient (now : ℚ) (rs : List AnalysisResult) (w : ℚ) :
    ((validResults rs).length = 3 →
      (calculate_trend now rs w).map SentimentScore.trend = some none) ∧
    (4 ≤ (validResults rs).length →
      (((validResults rs).filter
          (fun r => decide (r.analyzed_at ≥ now - w * 86400))).length < 2 ∨
        ((validResults rs).filter
          (fun r => decide (r.analyzed_at < now - w * 86400))).length < 2) →
      (calculate_trend now rs w).map SentimentScore.trend =
        some (some "insufficient_data")) := by
  constructor
  · intro h3
    apply trend_unset_below_floor
    · intro h0
      rw [h0] at h3
      simp at h3
    · omega
  · intro h4 hcond
    have hne : validResults rs ≠ [] := by
      intro h0
      rw [h0] at h4
      simp at h4
    obtain ⟨v0, vtail, hv⟩ := List.exists_cons_of_ne_nil hne
    obtain ⟨score, hs⟩ := tws_isSome now rs 7 hne
    have hto : score.total_analyzed = (validResults rs).length := by
      have h1 := tws_map_total now rs 7
      rw [hs, css_eq rs v0 vtail hv] at h1
      simpa using h1
    have hnlt : ¬ score.total_analyzed < 4 := by
      rw [hto]
      omega
    rw [calculate_trend, hs]
    simp only [hnlt, ite_false, hcond, ite_true, Option.map_some']

/-- Three successful results with mixed categories. -/
def ex3 : List AnalysisResult :=
  [mkResult .POSITIVE 0, mkResult .NEGATIVE 0, mkResult .HIGHLY_POSITIVE 0]

/-- C4 counterexample: on 3 successful samples the claim says the trend is
`insufficient_data`; the code returns the score with the trend field still
`None` (unset). -/
theorem C4_counterexample :
    (validResults ex3).length = 3 ∧
    (calculate_trend 0 ex3 3).map SentimentScore.trend = some none ∧
    (calculate_trend 0 ex3 3).map SentimentScore.trend ≠
      some (some "insufficient_data") := by
  have h := trend_unset_below_floor 0 3 ex3 (by decide) (by decide)
  refine ⟨by decide, h, ?_⟩
  rw [h]
  simp

/-- Four successful results, three recent and one old. -/
def ex4 : List AnalysisResult :=
  [mkResult .POSITIVE 259200, mkResult .POSITIVE 259200, mkResult .NEUTRAL 259200,
   mkResult .NEGATIVE (-86400)]

/-- Witness for C4: with 3 samples the trend stays unset; with 4 samples of
which only one is older than the window the trend is `insufficient_data`. -/
theorem C4_witness :
    ((validResults ex3).length = 3 ∧
      (calculate_trend 0 ex3 3).map SentimentScore.trend = some none) ∧
    (4 ≤ (validResults ex4).length ∧
      (calculate_trend 259200 ex4 3).map SentimentScore.trend =
        some (some "insufficient_data")) := by
  refine ⟨⟨by decide, (C4_trend_insufficient 0 ex3 3).1 (by decide)⟩,
    ⟨by decide, (C4_trend_insufficient 259200 ex4 3).2 (by decide) (Or.inr ?_)⟩⟩
  have hv : validResults ex4 = [mkResult .POSITIVE 259200, mkResult .POSITIVE 259200,
      mkResult .NEUTRAL 259200, mkResult .NEGATIVE (-86400)] := rfl
  rw [hv]
  norm_num [List.filter_cons, List.filter_nil, mkResult]

/-- A market-news item (spec's test vector title). -/
def avItem : NewsItem :=
  { title := "Apple Reports Record Earnings", summary := "s",
    published_date := "20240101T000000", source_type := some "alpha_vantage",
    url := some "u1" }

/-- A microblog item whose title differs only in case. -/
def twItem : NewsItem :=
  { title := "Apple reports record earnings", summary := "s",
    published_date := "20240102T000000", source_type := some "twitter",
    url := some "u2" }

/-- The same microblog item but carrying the market-news item's URL. -/
def twItemSharedUrl : NewsItem := { twItem with url := some "u1" }

/-- A similarity-ratio oracle that never fires, so only the exact-match
fast path of `_is_similar` applies. -/
def ratioNever : String → String → Bool := fun _ _ => false

/-- C2 counterexample: two similar items (case-only title difference) that
share the same URL.  In arrival order [microblog, market-news] the seen-URL
check drops the market-news item before any priority comparison, so the
lower-priority microblog item is the one kept: the claimed order
independence fails when both items carry the same URL. -/
theorem C2_counterexample :
    isSimilar ratioNever avItem.title twItemSharedUrl.title = true ∧
    isSimilar ratioNever twItemSharedUrl.title avItem.title = true ∧
    getPriority twItemSharedUrl < getPriority avItem ∧
    deduplicate ratioNever [avItem, twItemSharedUrl] = [avItem] ∧
    deduplicate ratioNever [twItemSharedUrl, avItem] = [twItemSharedUrl] :=
  ⟨by decide, by decide, by decide, by decide, by decide⟩

/-- C2 (amended): for any two items with similar titles that do not both
carry the same URL, deduplication keeps exactly the strictly
higher-priority one, independent of arrival order. -/
theorem C2_dedup_priority_wins (ratioGE : String → String → Bool)
    (a b : NewsItem)
    (hab : isSimilar ratioGE a.title b.title = true)
    (hba : isSimilar ratioGE b.title a.title = true)
    (hp : getPriority b < getPriority a)
    (hurl : a.url = none ∨ b.url = none ∨ a.url ≠ b.url) :
    deduplicate ratioGE [a, b] = [a] ∧ deduplicate ratioGE [b, a] = [a] := by
  have hnp : ¬ (getPriority a < getPriority b) := asymm hp
  have hne : ∀ u v, a.url = some u → b.url = some v → u ≠ v := by
    intro u v hu hv
    rcases hurl with h | h | h
    · rw [h] at hu; cases hu
    · rw [h] at hv; cases hv
    · intro he
      apply h
      rw [hu, hv, he]
  rcases ha : a.url with _ | ua <;> rcases hb : b.url with _ | ub
  · refine ⟨?_, ?_⟩ <;>
      simp [deduplicate, dedupStep, ha, hb, List.find?, hab, hba, hnp, hp,
        Finset.mem_insert, Finset.not_mem_empty, List.erase_cons_head]
  · refine ⟨?_, ?_⟩ <;>
      simp [deduplicate, dedupStep, ha, hb, List.find?, hab, hba, hnp, hp,
        Finset.mem_insert, Finset.not_mem_empty, List.erase_cons_head]
  · refine ⟨?_, ?_⟩ <;>
      simp [deduplicate, dedupStep, ha, hb, List.find?, hab, hba, hnp, hp,
        Finset.mem_insert, Finset.not_mem_empty, List.erase_cons_head]
  · have hx : ua ≠ ub := hne ua ub ha hb
    refine ⟨?_, ?_⟩ <;>
      simp [deduplicate, dedupStep, ha, hb, List.find?, hab, hba, hnp, hp,
        Finset.mem_insert, Finset.not_mem_empty, List.erase_cons_head, hx, Ne.symm hx]

/-- Witness for C2: the market-news item (priority 3) beats the similar,
distinct-URL microblog item (priority 1) in both arrival orders. -/
theorem C2_witness :
    isSimilar ratioNever avItem.title twItem.title = true ∧
    isSimilar ratioNever twItem.title avItem.title = true ∧
    getPriority twItem < getPriority avItem ∧
    deduplicate ratioNever [avItem, twItem] = [avItem] ∧
    deduplicate ratioNever [twItem, avItem] = [avItem] := by
  have h := C2_dedup_priority_wins ratioNever avItem twItem (by decide) (by decide)
    (by decide) (by decide)
  exact ⟨by decide, by decide, by decide, h.1, h.2⟩

/-- A persisted news record that has already been analyzed. -/
def newsRec1 : NewsRecord :=
  { id := 1, ticker := "AAPL", status := "analyzed", sentiment := some "Positive",
    fetched_at := 10 }

/-- A persisted news record still pending analysis. -/
def newsRec2 : NewsRecord :=
  { id := 2, ticker := "AAPL", status := "pending", fetched_at := 20 }

/-- A two-record news store. -/
def newsStore : List NewsRecord := [newsRec1, newsRec2]

/-- Witness for C10: updating a missing id returns `False` and leaves the
store unchanged; updating an already-analyzed record returns `True` and
overwrites its sentiment. -/
theorem C10_witness :
    (newsStore.find? (fun r => r.id == 3) = none ∧
      update_news_analysis 99 newsStore 3 "Negative" "j" = (false, newsStore)) ∧
    (newsStore.find? (fun r => r.id == 1) = some newsRec1 ∧
      update_news_analysis 99 newsStore 1 "Negative" "j" =
        (true, updateFirstRecord 1 "Negative" "j" 99 newsStore) ∧
      (updateFirstRecord 1 "Negative" "j" 99 newsStore).find? (fun r => r.id == 1) =
        some { newsRec1 with sentiment := some "Negative", justification := some "j",
                             status := "analyzed", analyzed_at := some 99 }) := by
  refine ⟨⟨by decide,
      (C10_update_news_analysis 99 newsStore 3 "Negative" "j" 0).1.mpr (by decide)⟩,
    ⟨by decide, ?_, ?_⟩⟩
  · exact ((C10_update_news_analysis 99 newsStore 1 "Negative" "j" 0).2.1 newsRec1
      (by decide)).1
  · exact ((C10_update_news_analysis 99 newsStore 1 "Negative" "j" 0).2.1 newsRec1
      (by decide)).2

/-- The URLs present among a list of news items. -/
def urlsOf (l : List NewsItem) : List String := l.filterMap NewsItem.url

/-- Erasing one item removes exactly its URL occurrence from the URL list
(membership-wise), provided the URL list has no duplicates. -/
theorem urlsOf_erase (l : List NewsItem) (x : NewsItem) (hx : x ∈ l)
    (hnd : (urlsOf l).Nodup) (w : String) :
    w ∈ urlsOf (l.erase x) ↔ (w ∈ urlsOf l ∧ x.url ≠ some w) := by
  obtain ⟨l1, l2, hx1, heq, herase⟩ := List.exists_erase_eq hx
  rw [herase, heq]
  rcases hu : x.url with _ | v
  · simp [urlsOf, List.filterMap_append, List.filterMap_cons, hu]
  · rw [heq] at hnd
    have hnd2 : (urlsOf l1 ++ v :: urlsOf l2).Nodup := by
      simpa [urlsOf, List.filterMap_append, List.filterMap_cons, hu] using hnd
    rw [List.nodup_append] at hnd2
    have hv1 : v ∉ urlsOf l1 := fun hmem => (hnd2.2.2 hmem) (by simp)
    have hv2 : v ∉ urlsOf l2 := by
      have := hnd2.2.1
      rw [List.nodup_cons] at this
      exact this.1
    simp only [urlsOf, List.filterMap_append, List.filterMap_cons, hu,
      List.mem_append, List.mem_cons]
    constructor
    · rintro (h | h)
      · refine ⟨Or.inl h, fun he => ?_⟩
        injection he with he2
        subst he2
        exact hv1 h
      · refine ⟨Or.inr (Or.inr h), fun he => ?_⟩
        injection he with he2
        subst he2
        exact hv2 h
    · rintro ⟨h | h | h, hne⟩
      · exact Or.inl h
      · exact absurd (by rw [h]) hne
      · exact Or.inr h

/-- The seen-URL set after the `seen_urls.discard(existing.url)` step
matches the URLs of the accepted list after `unique_items.remove`. -/
theorem seen_after_erase (st : List NewsItem × Finset String) (ex : NewsItem)
    (hmem : ex ∈ st.1) (hnd : (urlsOf st.1).Nodup)
    (hseen : ∀ u, u ∈ st.2 ↔ u ∈ urlsOf st.1) (w : String) :
    w ∈ (match ex.url with | some u => st.2.erase u | none => st.2) ↔
      w ∈ urlsOf (st.1.erase ex) := by
  have hiff := urlsOf_erase st.1 ex hmem hnd w
  rcases hu : ex.url with _ | v
  · rw [hu] at hiff
    rw [hiff, hseen w]
    simp
  · rw [hu] at hiff
    rw [Finset.mem_erase, hiff, hseen w]
    constructor
    · rintro ⟨h1, h2⟩
      exact ⟨h2, by simpa using Ne.symm h1⟩
    · rintro ⟨h2, h1⟩
      refine ⟨?_, h2⟩
      intro he
      exact h1 (by rw [he])

/-- One deduplication step preserves the invariant: accepted URLs are
pairwise distinct and the seen-set is exactly the accepted URLs. -/
theorem dedupStep_inv (sim : String → String → Bool)
    (st : List NewsItem × Finset String) (item : NewsItem)
    (hnd : (urlsOf st.1).Nodup) (hseen : ∀ u, u ∈ st.2 ↔ u ∈ urlsOf st.1) :
    (urlsOf (dedupStep sim st item).1).Nodup ∧
      ∀ u, u ∈ (dedupStep sim st item).2 ↔ u ∈ urlsOf (dedupStep sim st item).1 := by
  rw [dedupStep]
  split
  · exact ⟨hnd, hseen⟩
  next hchk =>
    have hnotin : ∀ u, item.url = some u → u ∉ urlsOf st.1 := by
      intro u hu hin
      apply hchk
      rw [hu]
      simpa using (hseen u).mpr hin
    split
    next ex hfind =>
      split
      next hpriori =>
        dsimp only
        have hmem : ex ∈ st.1 := List.mem_of_find?_eq_some hfind
        have hsub : List.Sublist (urlsOf (st.1.erase ex)) (urlsOf st.1) :=
          (List.erase_sublist ex st.1).filterMap NewsItem.url
        have hnd2 : (urlsOf (st.1.erase ex)).Nodup := hnd.sublist hsub
        have hs2 := seen_after_erase st ex hmem hnd hseen
        constructor
        · rcases hu : item.url with _ | u
          · simpa [urlsOf, List.filterMap_append, hu] using hnd2
          · rw [urlsOf, List.filterMap_append]
            refine List.Nodup.append hnd2 (by simp [urlsOf, hu]) ?_
            intro x hx hx2
            simp [urlsOf, hu] at hx2
            exact hnotin u hu (hsub.subset (hx2 ▸ hx))
        · intro w
          rcases hu : item.url with _ | u
          · dsimp only
            exact (hs2 w).trans
              (by simp [urlsOf, List.filterMap_append, List.filterMap_cons, hu])
          · dsimp only
            rw [Finset.mem_insert, hs2 w]
            simp only [urlsOf, List.filterMap_append, List.filterMap_cons, hu,
              List.filterMap_nil, List.mem_append, List.mem_cons,
              List.not_mem_nil, or_false]
            tauto
      next hpriori =>
        exact ⟨hnd, hseen⟩
    next hfind =>
      constructor
      · rcases hu : item.url with _ | u
        · simpa [urlsOf, List.filterMap_append, hu] using hnd
        · rw [urlsOf, List.filterMap_append]
          refine List.Nodup.append hnd (by simp [urlsOf, hu]) ?_
          intro x hx hx2
          simp [urlsOf, hu] at hx2
          exact hnotin u hu (hx2 ▸ hx)
      · intro w
        rcases hu : item.url with _ | u
        · dsimp only
          exact (hseen w).trans
            (by simp [urlsOf, List.filterMap_append, List.filterMap_cons, hu])
        · dsimp only
          rw [Finset.mem_insert, hseen w]
          simp only [urlsOf, List.filterMap_append, List.filterMap_cons, hu,
            List.filterMap_nil, List.mem_append, List.mem_cons,
            List.not_mem_nil, or_false]
          tauto

/-- The invariant carries over the whole fold. -/
theorem foldl_dedup_inv (sim : String → String → Bool) (l : List NewsItem) :
    ∀ st : List NewsItem × Finset String,
      (urlsOf st.1).Nodup → (∀ u, u ∈ st.2 ↔ u ∈ urlsOf st.1) →
      (urlsOf (l.foldl (dedupStep sim) st).1).Nodup ∧
        ∀ u, u ∈ (l.foldl (dedupStep sim) st).2 ↔
          u ∈ urlsOf (l.foldl (dedupStep sim) st).1 := by
  induction l with
  | nil => exact fun st hnd hseen => ⟨hnd, hseen⟩
  | cons x t ih =>
    intro st hnd hseen
    have hstep := dedupStep_inv sim st x hnd hseen
    exact ih (dedupStep sim st x) hstep.1 hstep.2

/-- Each step grows the accepted list by at most one. -/
theorem dedupStep_len (sim : String → String → Bool)
    (st : List NewsItem × Finset String) (item : NewsItem) :
    (dedupStep sim st item).1.length ≤ st.1.length + 1 := by
  rw [dedupStep]
  split
  · omega
  · split
    next ex hfind =>
      split
      · dsimp only
        have hsub : List.Sublist (st.1.erase ex) st.1 := List.erase_sublist ex st.1
        have := hsub.length_le
        simp only [List.length_append, List.length_cons, List.length_nil]
        omega
      · omega
    next hfind =>
      simp [List.length_append]

/-- The fold grows the accepted list by at most the number of inputs. -/
theorem foldl_dedup_len (sim : String → String → Bool) (l : List NewsItem) :
    ∀ st : List NewsItem × Finset String,
      (l.foldl (dedupStep sim) st).1.length ≤ st.1.length + l.length := by
  induction l with
  | nil => simp
  | cons x t ih =>
    intro st
    have h1 := ih (dedupStep sim st x)
    have h2 := dedupStep_len sim st x
    simp only [List.foldl_cons, List.length_cons]
    omega

/-- Distinct URL lists give the pairwise no-shared-URL property. -/
theorem pairwise_of_urls_nodup (l : List NewsItem) (h : (urlsOf l).Nodup) :
    l.Pairwise (fun x y => ∀ u, x.url = some u → y.url ≠ some u) := by
  induction l with
  | nil => exact List.Pairwise.nil
  | cons x t ih =>
    rcases hu : x.url with _ | u
    · refine List.Pairwise.cons ?_ (ih ?_)
      · intro y hy v hv
        rw [hu] at hv
        cases hv
      · simpa [urlsOf, List.filterMap_cons, hu] using h
    · have h2 : (u :: urlsOf t).Nodup := by
        simpa [urlsOf, List.filterMap_cons, hu] using h
      rw [List.nodup_cons] at h2
      refine List.Pairwise.cons ?_ (ih h2.2)
      intro y hy v hv hv2
      rw [hu] at hv
      injection hv with hv
      subst hv
      exact h2.1 (List.mem_filterMap.mpr ⟨y, hy, hv2⟩)

/-- C1: for every input list and any similarity oracle, deduplication
returns at most as many items as it received, and no two output items
share a present URL. -/
theorem C1_dedup_length_and_urls (sim : String → String → Bool)
    (items : List NewsItem) :
    (deduplicate sim items).length ≤ items.length ∧
    (deduplicate sim items).Pairwise
      (fun x y => ∀ u, x.url = some u → y.url ≠ some u) := by
  constructor
  · have h := foldl_dedup_len sim items ([], ∅)
    simpa [deduplicate] using h
  · have hinv := foldl_dedup_inv sim items ([], ∅)
      (by simp [urlsOf]) (by simp [urlsOf])
    exact pairwise_of_urls_nodup _ hinv.1
